import Mathlib

/-!
Verification of the redis-json-client path-addressing and
ancestor-materialization core (src/lib/redis-json.js), shallowly embedded.

JSON values, path segments and the client functions are translated from the
source; the remote RedisJSON store itself is an external collaborator and is
modelled from the spec where a claim needs its behaviour (each such
definition carries a doc comment saying so).
-/

/-- JSON value: the payload type for writes and the decoded type for reads
(spec data model). Objects are ordered association lists. -/
inductive Json where
  | null : Json
  | bool (b : Bool) : Json
  | num (n : Int) : Json
  | str (s : String) : Json
  | arr (elems : List Json) : Json
  | obj (fields : List (String × Json)) : Json

/-- Single-quote character, used by pathMaker to quote property-name
segments (written by its code point to keep sources plain). -/
def sqc : Char := Char.ofNat 39

/-- Path segment as the JS code receives it: a text property name or a
numeric array index (JS values in a path array are strings or numbers). -/
inductive JSeg where
  | str (s : String) : JSeg
  | num (n : Int) : JSeg
deriving DecidableEq, Repr

/-- Conversion of a segment to text, as the template literal in pathMaker
and the computed object key in the walk perform it. -/
def JSeg.render : JSeg → String
  | .str s => s
  | .num n => toString n

/-- Models the p.length === 0 test of pathMaker: only a text segment can
be empty; a number has no length property (undefined is never 0). -/
def JSeg.isEmptyStr : JSeg → Bool
  | .str s => s.isEmpty
  | .num _ => false

/-- Characters the JS ToNumber conversion trims from a string (modelled JS
builtin: whitespace and line terminators; the ASCII set plus NBSP and BOM). -/
def jsWhitespace (c : Char) : Bool :=
  c == ' ' || c == Char.ofNat 9 || c == Char.ofNat 10 || c == Char.ofNat 11 ||
    c == Char.ofNat 12 || c == Char.ofNat 13 || c == Char.ofNat 160 ||
    c == Char.ofNat 0xFEFF

/-- Hexadecimal digit test for the 0x literal form of JS ToNumber. -/
def isHexDigitJs (c : Char) : Bool :=
  c.isDigit || (decide (Char.ofNat 97 ≤ c) && decide (c ≤ Char.ofNat 102)) ||
    (decide (Char.ofNat 65 ≤ c) && decide (c ≤ Char.ofNat 70))

/-- Exponent part of a JS decimal literal: empty, or e/E, an optional sign
and one or more digits reaching the end. -/
def expPart : List Char → Bool
  | [] => true
  | c :: rest =>
    (c == 'e' || c == 'E') &&
      (let body := if rest.head? == some '+' || rest.head? == some '-' then rest.tail else rest
       !body.isEmpty && body.all Char.isDigit)

/-- Unsigned decimal literal of JS ToNumber: digits, digits dot digits,
dot digits, each with an optional exponent part. -/
def unsignedDecimal (l : List Char) : Bool :=
  let ds := l.takeWhile Char.isDigit
  let rest := l.dropWhile Char.isDigit
  if ds.isEmpty then
    match rest with
    | [] => false
    | c :: rest2 =>
      c == '.' &&
        (let ds2 := rest2.takeWhile Char.isDigit
         let rest3 := rest2.dropWhile Char.isDigit
         !ds2.isEmpty && expPart rest3)
  else
    match rest with
    | [] => true
    | c :: rest2 => if c == '.' then expPart (rest2.dropWhile Char.isDigit) else expPart rest

/-- Non-decimal numeric literals of JS ToNumber: unsigned 0x, 0o and 0b
forms. -/
def nonDecimalLiteral : List Char → Bool
  | '0' :: c :: rest =>
    ((c == 'x' || c == 'X') && !rest.isEmpty && rest.all isHexDigitJs) ||
      ((c == 'o' || c == 'O') && !rest.isEmpty &&
        rest.all fun d => decide ('0' ≤ d) && decide (d ≤ '7')) ||
      ((c == 'b' || c == 'B') && !rest.isEmpty && rest.all fun d => d == '0' || d == '1')
  | _ => false

/-- Whether a trimmed character sequence is a defined JS StringNumericLiteral
(empty converts to 0; otherwise a signed Infinity or decimal, or an unsigned
0x, 0o or 0b literal). -/
def strNumericValue (l : List Char) : Bool :=
  l.isEmpty || nonDecimalLiteral l ||
    (let body := if l.head? == some '+' || l.head? == some '-' then l.tail else l
     body == "Infinity".data || unsignedDecimal body)

/-- Models the JS builtin isNaN applied to a string: ToNumber trims
whitespace and parses a StringNumericLiteral; isNaN is true when that
parse is undefined. -/
def jsStrIsNaN (s : String) : Bool :=
  !strNumericValue (((s.data.dropWhile jsWhitespace).reverse.dropWhile jsWhitespace).reverse)

/-- Models isNaN(p) in pathMaker for a path segment: a number is never NaN
here (indices are finite numbers); a text segment goes through string
conversion. -/
def jsSegIsNaN : JSeg → Bool
  | .num _ => false
  | .str s => jsStrIsNaN s

/-- User-supplied path: a dotted text path or an ordered segment list, the
two input forms pathMaker accepts. -/
inductive JSPath where
  | str (s : String) : JSPath
  | list (segs : List JSeg) : JSPath

/-- Models the JS split on a dot: the list of chunks between dots (an empty
string yields one empty chunk, like "".split). -/
def splitOnDot : List Char → List (List Char)
  | [] => [[]]
  | c :: rest =>
    match splitOnDot rest with
    | [] => [[]]
    | g :: gs => if c == '.' then [] :: g :: gs else (c :: g) :: gs

/-- Segments of a dotted text path, as path.split in the source produces
them. -/
def jsSplitDot (s : String) : List JSeg :=
  (splitOnDot s.data).map fun g => JSeg.str (String.mk g)

/-- Bracketed group pathMaker emits for one segment: quoted when isNaN
holds of the segment, unquoted otherwise. -/
def segGroupChars (p : JSeg) : List Char :=
  '[' :: (if jsSegIsNaN p then sqc :: p.render.data ++ [sqc] else p.render.data) ++ [']']

/-- Loop body of pathMaker over the segment list: concatenates one group
per segment and stops at the first empty segment. -/
def coreChars : List JSeg → List Char
  | [] => []
  | p :: rest => if p.isEmptyStr then [] else segGroupChars p ++ coreChars rest

/-- pathMaker on a segment list (the common tail of both input forms):
empty input and an output emptied by the first-segment break both give the
root sentinel. -/
def pathMakerList (segs : List JSeg) : String :=
  if segs.length > 0 then
    let nPath := coreChars segs
    if nPath.length = 0 then "." else String.mk nPath
  else "."

/-- Models the JS path.startsWith(c) call for a one-character argument. -/
def jsStartsWith (s : String) (c : Char) : Bool :=
  s.data.head? == some c

/-- Models the JS path.endsWith(c) call for a one-character argument. -/
def jsEndsWith (s : String) (c : Char) : Bool :=
  s.data.getLast? == some c

/-- pathMaker of src/lib/redis-json.js: a text path already wrapped in
brackets (first character open, last character close) passes through; any
other text path is split on dots; a segment list is rebuilt group by
group. -/
def pathMaker : JSPath → String
  | .str s =>
    if jsStartsWith s '[' && jsEndsWith s ']' then s else pathMakerList (jsSplitDot s)
  | .list segs => pathMakerList segs

example : pathMaker (.list [.str "a", .str "b", .num 0]) =
    String.mk ('[' :: sqc :: 'a' :: sqc :: ']' :: '[' :: sqc :: 'b' :: sqc :: ']' :: '[' :: '0' :: ']' :: []) := by
  decide

example : pathMaker (.list []) = "." := by decide

example : pathMaker (.str "a.b.c") =
    String.mk ('[' :: sqc :: 'a' :: sqc :: ']' :: '[' :: sqc :: 'b' :: sqc :: ']' :: '[' :: sqc :: 'c' :: sqc :: ']' :: []) := by
  decide

example : pathMaker (.str "-1") = String.mk ('[' :: '-' :: '1' :: ']' :: []) := by decide

example : pathMaker (.list [.str "a", .str "", .str "b"]) =
    String.mk ('[' :: sqc :: 'a' :: sqc :: ']' :: []) := by decide

/-- Remote failure as the client sees it: a raw message text (spec error
taxonomy: categories derive purely from substring matches on this text). -/
structure JsError where
  message : String
deriving DecidableEq, Repr

/-- Whether the first character list starts the second. -/
def startsWithChars : List Char → List Char → Bool
  | [], _ => true
  | _ :: _, [] => false
  | a :: ns, b :: hs => a == b && startsWithChars ns hs

/-- Whether the first character list occurs inside the second. -/
def hasSubstrChars (needle : List Char) : List Char → Bool
  | [] => startsWithChars needle []
  | c :: hs => startsWithChars needle (c :: hs) || hasSubstrChars needle hs

/-- Models the JS message.includes(sub) test. -/
def jsIncludes (s sub : String) : Bool :=
  hasSubstrChars sub.data s.data

/-- Options object of set: the per-call auto-create flag. -/
structure SetOpts where
  recursive : Bool
deriving DecidableEq, Repr

/-- Failure classification of set: eligible for auto-create exactly when the
raw message carries one of the three known substrings. -/
def autoCreateEligible (message : String) : Bool :=
  jsIncludes message "non-terminal path level" ||
    jsIncludes message "must be created at the root" ||
    jsIncludes message "at level 0 in path"

/-- Outcome of the failure handling in set: the direct result is returned,
the ancestor walk is invoked, or the failure propagates to the caller. -/
inductive SetStep (α : Type) where
  | done (v : α) : SetStep α
  | invokeWalk : SetStep α
  | propagate (e : JsError) : SetStep α
deriving DecidableEq, Repr

/-- Value space of a settled callCommand promise as the source text of set
treats it: a fulfilled JSON-ish payload, or an Error instance — the case
the instanceof test inside set asks about. -/
inductive JsValue (α : Type) where
  | val (v : α) : JsValue α
  | errObj (e : JsError) : JsValue α

/-- Lines 45 to 59 of src/lib/redis-json.js, the tail of callCommand: the
underlying redis call either rejects, which the await rethrows, or
fulfills; a fulfilled value that is an Error instance is rethrown by the
instanceof guard on line 56, so callCommand never fulfills with an Error —
it fulfills with the parsed payload or throws. -/
def callCommandSettle {α : Type} : Except JsError (JsValue α) → Except JsError α
  | .error e => .error e
  | .ok (.errObj e) => .error e
  | .ok (.val v) => .ok v

/-- Body of set after the direct JSON.SET attempt, as written on lines 205
to 220: a value that is an Error instance is classified — the recursive
flag together with the three substrings selects the walk, anything else is
thrown — and any other value is returned unchanged. -/
def setBody {α : Type} (opts : SetOpts) (r : JsValue α) : SetStep α :=
  match r with
  | .errObj e =>
    if opts.recursive && autoCreateEligible e.message then .invokeWalk else .propagate e
  | .val v => .done v

/-- set of src/lib/redis-json.js as executed: the direct attempt is awaited
with no try or catch around it, so a rejection of callCommand rethrows to
the caller of set before the instanceof test runs; only a fulfilled value
reaches the body, and callCommandSettle never fulfills with an Error
instance, so the classification branch of setBody is unreachable. -/
def setRun {α : Type} (opts : SetOpts) (direct : Except JsError (JsValue α)) : SetStep α :=
  match callCommandSettle direct with
  | .error e => .propagate e
  | .ok v => setBody opts (.val v)

/-- Iterative wrapping performed by the walk, in source order of the dropped
segments: each segment becomes one single-key container level. -/
def nestValue : List JSeg → Json → Json
  | [], v => v
  | s :: rest, v => Json.obj [(s.render, nestValue rest v)]

/-- Wrapping as the walk performs it on the reversed segment list (the loop
pops from the tail, so the innermost key is wrapped first). -/
def nestRev : List JSeg → Json → Json
  | [], v => v
  | s :: rest, v => nestRev rest (Json.obj [(s.render, v)])

/-- While loop of findAndCreateParentObject over the reversed segment list
(paths.pop removes the last element, so recursion peels the reversed head):
probe the prefix without the last segment; a non-null type stops the walk,
a null type pops the segment and wraps the value. The probe stands for
this.type(key, pathMaker(prefix)); the remote resolution of that canonical
path is applied to the prefix segments directly. Returns the remaining
reversed segments, the built value and the number of loop iterations. -/
def fcWalkRev (probe : List JSeg → Option String) : List JSeg → Json → List JSeg × Json × Nat
  | [], v => ([], v, 0)
  | s :: rest, v =>
    match probe rest.reverse with
    | some _ => (s :: rest, v, 1)
    | none =>
      let r := fcWalkRev probe rest (Json.obj [(s.render, v)])
      (r.1, r.2.1, r.2.2 + 1)

/-- Walk of findAndCreateParentObject in source segment order: remaining
path, built value and iteration count. -/
def fcWalk (probe : List JSeg → Option String) (paths : List JSeg) (v : Json) :
    List JSeg × Json × Nat :=
  let w := fcWalkRev probe paths.reverse v
  (w.1.reverse, w.2.1, w.2.2)

/-- Corrective write issued at the end of findAndCreateParentObject: the
canonical path string passed to set, the segments that path stands for, the
wrapped value, and the recursive flag of the call (always false). -/
structure WriteCall where
  pathStr : String
  segs : List JSeg
  value : Json
  recursive : Bool

/-- findAndCreateParentObject of src/lib/redis-json.js: a text path is split
on dots, a list is used directly; the walk runs, then one non-recursive set
is issued at pathMaker of the remaining segments with the built value. -/
def findAndCreateParentObject (probe : List JSeg → Option String) (path : JSPath)
    (value : Json) : WriteCall :=
  let paths : List JSeg :=
    match path with
    | .str s => jsSplitDot s
    | .list l => l
  let w := fcWalk probe paths value
  ⟨pathMakerList w.1, w.1, w.2.1, false⟩

/-- Modelled from the spec: type name the remote store reports for a JSON
value (spec section 6, the type-query operation of the external store). -/
def jsonTypeName : Json → String
  | .null => "null"
  | .bool _ => "boolean"
  | .num _ => "number"
  | .str _ => "string"
  | .arr _ => "array"
  | .obj _ => "object"

/-- Modelled from the spec: one resolution step of the external store, a
property name inside an object or a numeric index inside an array (spec
section 6, path argument resolution). -/
def resolveSeg (v : Json) (s : JSeg) : Option Json :=
  match v, s with
  | .obj fields, s => fields.lookup s.render
  | .arr elems, .num n => if n < 0 then none else elems.get? n.toNat
  | _, _ => none

/-- Modelled from the spec: resolution of a whole segment path inside a
document held by the external store. -/
def resolvePath (v : Json) : List JSeg → Option Json
  | [] => some v
  | s :: rest => (resolveSeg v s).bind fun c => resolvePath c rest

/-- Modelled from the spec: the JSON.TYPE probe of the external store; a
missing key or unresolvable path reports null (spec section 6). -/
def typeAt (doc : Option Json) (segs : List JSeg) : Option String :=
  (doc.bind fun d => resolvePath d segs).map jsonTypeName

/-- Field replacement inside a stored object, keeping field order (the
external store updates a member in place). -/
def updateField (fields : List (String × Json)) (k : String) (c : Json) :
    List (String × Json) :=
  fields.map fun p => if p.1 == k then (k, c) else p

/-- Modelled from the spec: the write of the external store below the
document root. An existing member or index is replaced; a missing final
member of an existing object is created; a missing intermediate level fails
(spec sections 4.3 and 6: a write cannot create more than the leaf). -/
def setIn : List JSeg → Json → Json → Option Json
  | [], _, v => some v
  | s :: rest, d, v =>
    match d with
    | .obj fields =>
      match fields.lookup s.render with
      | some child => (setIn rest child v).map fun c => Json.obj (updateField fields s.render c)
      | none =>
        if rest.isEmpty then some (Json.obj (fields ++ [(s.render, v)])) else none
    | .arr elems =>
      match s with
      | .num n =>
        if n < 0 then none
        else
          match elems.get? n.toNat with
          | some child => (setIn rest child v).map fun c => Json.arr (elems.set n.toNat c)
          | none => none
      | .str _ => none
    | _ => none

/-- Modelled from the spec: JSON.SET of the external store; a write at the
root always succeeds and replaces the whole document, a missing key fails
for any deeper target, and failures below the root follow setIn. Returns
the new document, or none for the failure the client classifies. -/
def setAt (doc : Option Json) (segs : List JSeg) (v : Json) : Option Json :=
  match doc with
  | none => match segs with
    | [] => some v
    | _ :: _ => none
  | some d => setIn segs d v

/-- Modelled from the spec: raw failure message of the external store for a
rejected write, carrying the documented substrings (a missing key must be
created at the document root; a missing intermediate level is non-terminal). -/
def remoteSetError (doc : Option Json) : JsError :=
  match doc with
  | none => ⟨"ERR new objects must be created at the root"⟩
  | some _ => ⟨"ERR missing key at non-terminal path level"⟩

/-- Element of the raw JSON.MGET reply: a bulk string, a null for a missing
key or path, or undefined when the loop indexes past the reply. -/
inductive RawReply where
  | nullv : RawReply
  | strv (s : String) : RawReply
  | undef : RawReply
deriving DecidableEq, Repr

/-- Value held per key after safetyJsonParse: a decoded JSON value, the raw
text when decoding failed, or undefined passed through. -/
inductive Decoded where
  | json (j : Json) : Decoded
  | raw (s : String) : Decoded
  | undef : Decoded

/-- safetyJsonParse of src/lib/redis-json.js applied to one reply element:
null has object type and passes through; a failed parse of text returns the
text itself; undefined stays undefined (JSON.parse on it throws). The JS
builtin JSON.parse is the parameter parse. -/
def safetyJsonParse (parse : String → Option Json) : RawReply → Decoded
  | .nullv => .json .null
  | .undef => .undef
  | .strv s =>
    match parse s with
    | some j => .json j
    | none => .raw s

/-- Models the JS property assignment json[k] = v on an object literal: an
existing key is overwritten in place, a new key is appended. -/
def jsObjSet (o : List (String × Decoded)) (k : String) (v : Decoded) :
    List (String × Decoded) :=
  if o.any (fun p => p.1 == k) then o.map (fun p => if p.1 == k then (k, v) else p)
  else o ++ [(k, v)]

/-- Loop of mget over the key list: the i-th key is assigned the parsed i-th
reply element (stepping the reply list mirrors the index i). -/
def mgetAssign (parse : String → Option Json) :
    List String → List RawReply → List (String × Decoded) → List (String × Decoded)
  | [], _, acc => acc
  | k :: ks, rs, acc =>
    mgetAssign parse ks rs.tail (jsObjSet acc k (safetyJsonParse parse (rs.headD .undef)))

/-- Pairing of each key, in order, with the parse of its reply element (what
the mget loop produces when no key repeats). -/
def decodeAll (parse : String → Option Json) :
    List String → List RawReply → List (String × Decoded)
  | [], _ => []
  | k :: ks, rs => (k, safetyJsonParse parse (rs.headD .undef)) :: decodeAll parse ks rs.tail

/-- mget of src/lib/redis-json.js for a key list: a dispatch failure of the
JSON.MGET call propagates and no mapping is returned; on success the loop
builds the object keyed by the input keys. -/
def mget (parse : String → Option Json) (keys : List String)
    (dispatch : Except JsError (List RawReply)) : Except JsError (List (String × Decoded)) :=
  match dispatch with
  | .error e => .error e
  | .ok rs => .ok (mgetAssign parse keys rs [])

/-- Remote command as the dispatch layer sends it: the operation name and
its positional arguments. -/
structure JCmd where
  name : String
  args : List String
deriving DecidableEq, Repr

/-- arrlen of src/lib/redis-json.js: dispatches JSON.ARRLEN with the key and
canonical path. -/
def arrlen (key : String) (path : JSPath) : JCmd :=
  ⟨"JSON.ARRLEN", [key, pathMaker path]⟩

/-- arrpop of src/lib/redis-json.js: builds key and canonical path, appends
the index when given, and dispatches the JSON.ARRLEN operation name. -/
def arrpop (key : String) (path : JSPath) (index : Option Int) : JCmd :=
  ⟨"JSON.ARRLEN",
    [key, pathMaker path] ++ (match index with | some i => [toString i] | none => [])⟩

/-- Modelled from the spec: the array-length operation of the external store
reads the length of the array at the path and modifies nothing (spec
section 6). Returns the reported length and the document afterwards. -/
def execArrlenDoc (doc : Option Json) (segs : List JSeg) : Option Nat × Option Json :=
  (match doc.bind fun d => resolvePath d segs with
   | some (.arr elems) => some elems.length
   | _ => none,
   doc)

example :
    (fcWalk (typeAt (some (.obj [("a", .obj [])]))) [.str "a", .str "b", .str "c"] (.num 42)).1 =
      [.str "a", .str "b"] := by decide

example :
    (findAndCreateParentObject (typeAt (some (.obj [("a", .obj [])]))) (.str "a.b.c")
        (.num 42)).pathStr =
      String.mk ('[' :: sqc :: 'a' :: sqc :: ']' :: '[' :: sqc :: 'b' :: sqc :: ']' :: []) := by
  decide

example :
    (findAndCreateParentObject (typeAt none) (.list [.str "a", .str "b", .str "c"])
        (.num 42)).pathStr = "." := by decide

theorem nestValue_append_single (xs : List JSeg) (s : JSeg) (v : Json) :
    nestValue (xs ++ [s]) v = nestValue xs (Json.obj [(s.render, v)]) := by
  induction xs with
  | nil => rfl
  | cons x xs ih => simp [nestValue, ih]

theorem nestRev_eq (m : List JSeg) (v : Json) : nestRev m v = nestValue m.reverse v := by
  induction m generalizing v with
  | nil => rfl
  | cons s rest ih =>
    simp [nestRev, ih, List.reverse_cons, nestValue_append_single]

theorem fcWalkRev_spec (probe : List JSeg → Option String) (l : List JSeg) (v : Json) :
    ∃ k, k ≤ l.length ∧
      (fcWalkRev probe l v).1 = l.drop k ∧
      (fcWalkRev probe l v).2.1 = nestRev (l.take k) v ∧
      (fcWalkRev probe l v).2.2 ≤ l.length ∧
      ((∀ q, probe q = none) → (fcWalkRev probe l v).1 = []) := by
  induction l generalizing v with
  | nil => exact ⟨0, by simp [fcWalkRev, nestRev]⟩
  | cons s rest ih =>
    cases h : probe rest.reverse with
    | some t =>
      refine ⟨0, by simp, ?_, ?_, ?_, ?_⟩
      · simp [fcWalkRev, h]
      · simp [fcWalkRev, h, nestRev]
      · simp [fcWalkRev, h]
      · intro hall
        rw [hall rest.reverse] at h
        cases h
    | none =>
      obtain ⟨k, hk, h1, h2, h3, h4⟩ := ih (Json.obj [(s.render, v)])
      refine ⟨k + 1, by simpa using hk, ?_, ?_, ?_, ?_⟩
      · simpa [fcWalkRev, h] using h1
      · simpa [fcWalkRev, h, nestRev] using h2
      · simp only [fcWalkRev, h, List.length_cons]
        omega
      · intro hall
        simpa [fcWalkRev, h] using h4 hall

/-- Claim C4: in the ancestor walk of findAndCreateParentObject, the
remaining path after the walk is a prefix of the input, every removed
segment added exactly one nesting level keyed by it around the value being
built, the loop body ran at most len(path) times, and the walk reaches the
empty path (the root) when no probe ever reports a non-null type. The walk
terminates unconditionally: fcWalk is a total function, defined by
structural recursion on the segment list. -/
theorem walk_invariant (probe : List JSeg → Option String) (paths : List JSeg) (v : Json) :
    ∃ dropped : List JSeg,
      paths = (fcWalk probe paths v).1 ++ dropped ∧
      (fcWalk probe paths v).2.1 = nestValue dropped v ∧
      (fcWalk probe paths v).2.2 ≤ paths.length ∧
      ((∀ q, probe q = none) → (fcWalk probe paths v).1 = []) := by
  obtain ⟨k, hk, h1, h2, h3, h4⟩ := fcWalkRev_spec probe paths.reverse v
  refine ⟨(paths.reverse.take k).reverse, ?_, ?_, ?_, ?_⟩
  · have hsplit : paths.reverse = paths.reverse.take k ++ paths.reverse.drop k :=
      (List.take_append_drop k paths.reverse).symm
    calc paths = paths.reverse.reverse := by simp
    _ = (paths.reverse.take k ++ paths.reverse.drop k).reverse := by rw [← hsplit]
    _ = (paths.reverse.drop k).reverse ++ (paths.reverse.take k).reverse := by
        rw [List.reverse_append]
    _ = (fcWalk probe paths v).1 ++ (paths.reverse.take k).reverse := by
        simp [fcWalk, h1]
  · simp [fcWalk, h2, nestRev_eq]
  · simpa [fcWalk] using h3
  · intro hall
    simp [fcWalk, h4 hall]

/-- Witness for C4: on a three-segment path with a probe that always
reports null, the walk empties the path and iterates at most three times. -/
theorem walk_invariant_witness :
    (fcWalk (fun _ => none) [JSeg.str "a", JSeg.str "b", JSeg.str "c"] (Json.num 42)).1 = [] ∧
    (fcWalk (fun _ => none) [JSeg.str "a", JSeg.str "b", JSeg.str "c"] (Json.num 42)).2.2 ≤ 3 := by
  obtain ⟨d, h1, h2, h3, h4⟩ :=
    walk_invariant (fun _ => none) [JSeg.str "a", JSeg.str "b", JSeg.str "c"] (Json.num 42)
  exact ⟨h4 fun q => rfl, by simpa using h3⟩

/-- Claim C1 (code bug): the auto-create classification in set is dead
code. Every rejection of callCommand rethrows at the await in set, which
has no try or catch, and a fulfilled Error instance is already rethrown
inside callCommand, so every direct-write failure — eligible message or
not, recursive flag or not — propagates to the caller and setRun never
yields invokeWalk. At the failing input, a recursive write rejected with
the eligible non-terminal-path-level message, set propagates the failure;
the classification text itself (setBody on an Error instance) would have
selected the walk there, which is what the claim, the set docstring and
the readme describe. -/
theorem set_autocreate_dead :
    (∀ (α : Type) (opts : SetOpts) (e : JsError),
      setRun (α := α) opts (.error e) = .propagate e) ∧
    (∀ (α : Type) (opts : SetOpts) (e : JsError),
      setRun (α := α) opts (.ok (.errObj e)) = .propagate e) ∧
    (∀ (α : Type) (opts : SetOpts) (direct : Except JsError (JsValue α)),
      setRun opts direct ≠ SetStep.invokeWalk) ∧
    (∀ (α : Type) (opts : SetOpts) (v : α), setRun opts (.ok (.val v)) = .done v) ∧
    setRun (α := Json) ⟨true⟩ (.error ⟨"ERR missing key at non-terminal path level"⟩) =
      .propagate ⟨"ERR missing key at non-terminal path level"⟩ ∧
    autoCreateEligible "ERR missing key at non-terminal path level" = true ∧
    setBody (α := Json) ⟨true⟩ (.errObj ⟨"ERR missing key at non-terminal path level"⟩) =
      SetStep.invokeWalk := by
  refine ⟨fun α opts e => rfl, fun α opts e => rfl, ?_, fun α opts v => rfl, rfl, rfl, rfl⟩
  intro α opts direct h
  rcases direct with e | r
  · exact SetStep.noConfusion h
  · rcases r with v | e
    · exact SetStep.noConfusion h
    · exact SetStep.noConfusion h

/-- Document of the C2 scenario: the key already holds an object with the
single member a whose value is the empty object. -/
def c2Doc : Option Json := some (.obj [("a", .obj [])])

/-- Corrective write produced for the C2 scenario: a recursive write of 42
at a.b.c over c2Doc, after the direct attempt failed. -/
def c2Call : WriteCall := findAndCreateParentObject (typeAt c2Doc) (.str "a.b.c") (.num 42)

/-- Counterexample for C2: the corrective write is not anchored at the
existing ancestor a; its canonical path is bracket-a bracket-b, one segment
below the anchor, not the canonical path of the prefix a alone. -/
theorem c2_write_not_at_anchor :
    c2Call.pathStr = String.mk ('[' :: sqc :: 'a' :: sqc :: ']' :: '[' :: sqc :: 'b' :: sqc :: ']' :: []) ∧
    c2Call.pathStr ≠ pathMakerList [JSeg.str "a"] ∧
    c2Call.segs ≠ [JSeg.str "a"] := by
  refine ⟨by decide, by decide, by decide⟩

/-- Claim C2 as amended: over a document holding an empty object at a, the
direct write of 42 at a.b.c fails and is eligible for auto-create; the walk
probes a.b (null) and stops at a (non-null); the one corrective write is
non-recursive, targets the remaining path a.b (one segment below the anchor
a, not the anchor itself and not the root) with the once-wrapped value, and
applying it yields the document where a.b.c holds 42. -/
theorem c2_anchor_selection :
    setAt c2Doc [.str "a", .str "b", .str "c"] (.num 42) = none ∧
    autoCreateEligible (remoteSetError c2Doc).message = true ∧
    typeAt c2Doc [.str "a", .str "b"] = none ∧
    typeAt c2Doc [.str "a"] = some "object" ∧
    c2Call.segs = [JSeg.str "a", JSeg.str "b"] ∧
    c2Call.pathStr = String.mk ('[' :: sqc :: 'a' :: sqc :: ']' :: '[' :: sqc :: 'b' :: sqc :: ']' :: []) ∧
    c2Call.recursive = false ∧
    c2Call.value = Json.obj [("c", Json.num 42)] ∧
    setAt c2Doc c2Call.segs c2Call.value =
      some (.obj [("a", .obj [("b", .obj [("c", .num 42)])])]) ∧
    c2Call.pathStr ≠ "." := by
  refine ⟨rfl, rfl, rfl, rfl, by decide, by decide, rfl, rfl, rfl, by decide⟩

/-- Corrective write produced for the C3 scenario: a recursive write of 42
at the segment path a, b, c when the key holds no document at all. -/
def c3Call : WriteCall :=
  findAndCreateParentObject (typeAt none) (.list [.str "a", .str "b", .str "c"]) (.num 42)

/-- Document the C3 corrective write creates: c nested under b nested under
a, holding 42. -/
def c3ResultDoc : Json := .obj [("a", .obj [("b", .obj [("c", .num 42)])])]

/-- Claim C3: with no existing document, the direct write fails with an
eligible message, every existence probe reports null, the walk drops every
segment wrapping the value once per segment, the corrective write targets
the root sentinel with the fully nested value, and afterwards the key holds
the nested document with 42 readable at a.b.c. -/
theorem c3_root_materialization :
    (∀ q : List JSeg, typeAt none q = none) ∧
    setAt none [.str "a", .str "b", .str "c"] (.num 42) = none ∧
    autoCreateEligible (remoteSetError none).message = true ∧
    c3Call.segs = [] ∧
    c3Call.pathStr = "." ∧
    c3Call.value = nestValue [.str "a", .str "b", .str "c"] (.num 42) ∧
    c3Call.value = c3ResultDoc ∧
    setAt none c3Call.segs c3Call.value = some c3ResultDoc ∧
    resolvePath c3ResultDoc [.str "a", .str "b", .str "c"] = some (.num 42) := by
  refine ⟨fun q => rfl, rfl, rfl, by decide, by decide, rfl, rfl, rfl, rfl⟩

theorem digit_not_ws (c : Char) (h : c.isDigit = true) : jsWhitespace c = false := by
  by_contra hw
  rw [Bool.not_eq_false] at hw
  simp only [jsWhitespace, Bool.or_eq_true, beq_iff_eq] at hw
  rcases hw with ((((((h1 | h1) | h1) | h1) | h1) | h1) | h1) | h1 <;> subst h1 <;>
    exact absurd h (by decide)

theorem digits_not_nan (s : String) (hne : s.data ≠ []) (hd : s.data.all Char.isDigit = true) :
    jsSegIsNaN (.str s) = false := by
  have hall : ∀ c ∈ s.data, c.isDigit = true := by
    intro c hc
    exact List.all_eq_true.mp hd c hc
  obtain ⟨c, rest, hcons⟩ := List.exists_cons_of_ne_nil hne
  have hcd : c.isDigit = true := hall c (by simp [hcons])
  have h1 : s.data.dropWhile jsWhitespace = s.data := by
    rw [hcons, List.dropWhile_cons, digit_not_ws c hcd]
    simp
  have h2 : s.data.reverse.dropWhile jsWhitespace = s.data.reverse := by
    cases hrev : s.data.reverse with
    | nil =>
      exact absurd (List.reverse_eq_nil_iff.mp hrev) hne
    | cons d ds =>
      have hdmem : d ∈ s.data := by
        have : d ∈ s.data.reverse := by rw [hrev]; exact List.mem_cons_self d ds
        simpa using this
      rw [List.dropWhile_cons, digit_not_ws d (hall d hdmem)]
      simp
  have hplus : (s.data.head? == some '+') = false := by
    have : c ≠ '+' := fun hh => by rw [hh] at hcd; exact absurd hcd (by decide)
    simp [hcons, this]
  have hminus : (s.data.head? == some '-') = false := by
    have : c ≠ '-' := fun hh => by rw [hh] at hcd; exact absurd hcd (by decide)
    simp [hcons, this]
  have hud : unsignedDecimal s.data = true := by
    unfold unsignedDecimal
    have ht : s.data.takeWhile Char.isDigit = s.data :=
      List.takeWhile_eq_self_iff.mpr (by intro x hx; simpa using hall x hx)
    have hdw : s.data.dropWhile Char.isDigit = [] :=
      List.dropWhile_eq_nil_iff.mpr (by intro x hx; simpa using hall x hx)
    rw [hcons] at ht hdw ⊢
    simp [ht, hdw]
  show jsStrIsNaN s = false
  unfold jsStrIsNaN
  rw [h1, h2, List.reverse_reverse]
  simp only [Bool.not_eq_false']
  unfold strNumericValue
  simp only [hplus, hminus, Bool.or_self, Bool.false_or, if_false]
  simp [hud]

theorem segGroupChars_ne_nil (s : JSeg) : segGroupChars s ≠ [] := by
  simp [segGroupChars]

theorem coreChars_eq_join (segs : List JSeg) (h : ∀ s ∈ segs, s.isEmptyStr = false) :
    coreChars segs = (segs.map segGroupChars).flatten := by
  induction segs with
  | nil => rfl
  | cons p rest ih =>
    have hp : p.isEmptyStr = false := h p (by simp)
    simp [coreChars, hp, ih fun s hs => h s (by simp [hs])]

theorem pathMakerList_join (segs : List JSeg) (hne : segs ≠ [])
    (h : ∀ s ∈ segs, s.isEmptyStr = false) :
    pathMakerList segs = String.mk (segs.map segGroupChars).flatten := by
  obtain ⟨p, rest, hcons⟩ := List.exists_cons_of_ne_nil hne
  have hlen : segs.length > 0 := by rw [hcons]; simp
  have hcne : coreChars segs ≠ [] := by
    rw [hcons, coreChars]
    have hp : p.isEmptyStr = false := h p (by simp [hcons])
    simp only [hp, Bool.false_eq_true, if_false]
    intro hnil
    exact segGroupChars_ne_nil p (List.append_eq_nil.mp hnil).1
  simp only [pathMakerList, if_pos hlen]
  rw [if_neg (by simp [List.length_eq_zero, hcne])]
  rw [coreChars_eq_join segs h]

/-- Claim C5 as amended: for a duplicate-free-of-empties segment list the
normalizer emits the concatenation of one bracketed group per segment; a
group is unquoted exactly when the segment is not NaN under the JS string
to number coercion (which holds of every plain non-negative integer
segment, but also of signed, decimal, exponent and similar numeric forms);
the worked example and the empty input produce the documented outputs. -/
theorem pathMaker_quoting :
    (∀ segs : List JSeg, segs ≠ [] → (∀ s ∈ segs, s.isEmptyStr = false) →
      pathMakerList segs = String.mk (segs.map segGroupChars).flatten) ∧
    (∀ s : JSeg, segGroupChars s =
      '[' :: (if jsSegIsNaN s then sqc :: s.render.data ++ [sqc] else s.render.data) ++ [']']) ∧
    (∀ s : String, s.data ≠ [] → s.data.all Char.isDigit = true → jsSegIsNaN (.str s) = false) ∧
    pathMaker (.list [.str "a", .str "b", .num 0]) =
      String.mk
        ('[' :: sqc :: 'a' :: sqc :: ']' :: '[' :: sqc :: 'b' :: sqc :: ']' :: '[' :: '0' :: ']' :: []) ∧
    pathMakerList [] = "." := by
  refine ⟨pathMakerList_join, fun s => rfl, digits_not_nan, by decide, rfl⟩

/-- Counterexample for C5: the segment -1 is not a non-negative integer, so
the claim quotes it, but the code emits it unquoted because JS isNaN is
false on it. -/
theorem pathMaker_quoting_counterexample :
    pathMaker (.str "-1") = String.mk ('[' :: '-' :: '1' :: ']' :: []) ∧
    pathMaker (.str "-1") ≠ String.mk ('[' :: sqc :: '-' :: '1' :: sqc :: ']' :: []) := by
  refine ⟨by decide, by decide⟩

/-- Witness for C5: a two-segment list with no empty segment satisfies the
group-concatenation form. -/
theorem pathMaker_quoting_witness :
    ([JSeg.str "a", JSeg.num 3] ≠ []) ∧
    pathMakerList [JSeg.str "a", JSeg.num 3] =
      String.mk ([JSeg.str "a", JSeg.num 3].map segGroupChars).flatten :=
  ⟨by decide, pathMaker_quoting.1 [JSeg.str "a", JSeg.num 3] (by decide) (by decide)⟩

theorem coreChars_append_stops (pre : List JSeg) (e : JSeg) (rest : List JSeg)
    (hpre : ∀ s ∈ pre, s.isEmptyStr = false) (he : e.isEmptyStr = true) :
    coreChars (pre ++ e :: rest) = coreChars pre := by
  induction pre with
  | nil => simp [coreChars, he]
  | cons p pre2 ih =>
    have hp : p.isEmptyStr = false := hpre p (by simp)
    simp [coreChars, hp, ih fun s hs => hpre s (by simp [hs])]

/-- Claim C6: the normalizer output of a path whose first empty segment sits
after the prefix pre equals the output for pre alone; segments after the
empty one never appear, and an empty first segment yields the root
sentinel. -/
theorem pathMaker_truncates_at_first_empty (pre : List JSeg) (e : JSeg) (rest : List JSeg)
    (hpre : ∀ s ∈ pre, s.isEmptyStr = false) (he : e.isEmptyStr = true) :
    pathMakerList (pre ++ e :: rest) = pathMakerList pre ∧
    (pre = [] → pathMakerList (pre ++ e :: rest) = ".") := by
  have hcore := coreChars_append_stops pre e rest hpre he
  constructor
  · cases pre with
    | nil => simp [pathMakerList, hcore, coreChars, he]
    | cons p pre2 =>
      have hp : p.isEmptyStr = false := hpre p (by simp)
      have hcne : coreChars (p :: pre2) ≠ [] := by
        rw [coreChars]
        simp only [hp, Bool.false_eq_true, if_false]
        intro hnil
        exact segGroupChars_ne_nil p (List.append_eq_nil.mp hnil).1
      have hcore2 : coreChars (p :: (pre2 ++ e :: rest)) = coreChars (p :: pre2) := by
        simpa using hcore
      simp only [pathMakerList, List.cons_append, hcore2]
      simp
  · intro h
    subst h
    simp [pathMakerList, hcore, coreChars, he]

/-- Witness for C6: with prefix a, an empty segment and a trailing b, the
output equals the output for a alone. -/
theorem pathMaker_truncates_witness :
    pathMakerList [JSeg.str "a", JSeg.str "", JSeg.str "b"] = pathMakerList [JSeg.str "a"] :=
  (pathMaker_truncates_at_first_empty [JSeg.str "a"] (JSeg.str "") [JSeg.str "b"]
      (by decide) (by decide)).1

theorem segGroupChars_concat (s : JSeg) : segGroupChars s =
    ('[' :: (if jsSegIsNaN s then sqc :: s.render.data ++ [sqc] else s.render.data)) ++ [']'] := by
  simp [segGroupChars]

theorem coreChars_getLast (segs : List JSeg) :
    coreChars segs = [] ∨ (coreChars segs).getLast? = some ']' := by
  induction segs with
  | nil => exact Or.inl rfl
  | cons p rest ih =>
    by_cases hp : p.isEmptyStr
    · left
      simp [coreChars, hp]
    · right
      simp only [coreChars, hp, Bool.false_eq_true, if_false]
      rcases ih with h | h
      · rw [h, List.append_nil]
        show (segGroupChars p).getLast? = some ']'
        rw [segGroupChars]
        exact List.getLast?_concat _
      · rw [List.getLast?_append_of_ne_nil _ (by intro hnil; rw [hnil] at h; cases h)]
        exact h

theorem coreChars_head (segs : List JSeg) :
    coreChars segs = [] ∨ (coreChars segs).head? = some '[' := by
  cases segs with
  | nil => exact Or.inl rfl
  | cons p rest =>
    by_cases hp : p.isEmptyStr
    · left
      simp [coreChars, hp]
    · right
      simp [coreChars, hp, segGroupChars]

theorem pathMakerList_shape (segs : List JSeg) :
    pathMakerList segs = "." ∨
      (jsStartsWith (pathMakerList segs) '[' = true ∧
        jsEndsWith (pathMakerList segs) ']' = true) := by
  cases segs with
  | nil => exact Or.inl rfl
  | cons p rest =>
    by_cases h0 : (coreChars (p :: rest)).length = 0
    · left
      simp [pathMakerList, h0]
    · right
      have hne : coreChars (p :: rest) ≠ [] := by
        intro h
        rw [h] at h0
        exact h0 rfl
      have hval : pathMakerList (p :: rest) = String.mk (coreChars (p :: rest)) := by
        simp [pathMakerList, h0]
      rcases coreChars_head (p :: rest) with h | hh
      · exact absurd h hne
      rcases coreChars_getLast (p :: rest) with h | hl
      · exact absurd h hne
      rw [hval]
      constructor
      · simp [jsStartsWith, hh]
      · simp [jsEndsWith, hl]

/-- Claim C7: the normalizer is idempotent; normalizing its own canonical
output, fed back as a text path, returns that output unchanged, for either
input form. -/
theorem pathMaker_idempotent (p : JSPath) :
    pathMaker (.str (pathMaker p)) = pathMaker p := by
  have key : pathMaker p = "." ∨
      (jsStartsWith (pathMaker p) '[' = true ∧ jsEndsWith (pathMaker p) ']' = true) := by
    cases p with
    | list segs => exact pathMakerList_shape segs
    | str s =>
      by_cases h : jsStartsWith s '[' && jsEndsWith s ']'
      · right
        have hps : pathMaker (.str s) = s := by simp [pathMaker, h]
        rw [hps]
        exact ⟨(Bool.and_eq_true _ _).mp h |>.1, (Bool.and_eq_true _ _).mp h |>.2⟩
      · have hps : pathMaker (.str s) = pathMakerList (jsSplitDot s) := by
          simp only [pathMaker]
          rw [if_neg h]
        rw [hps]
        exact pathMakerList_shape (jsSplitDot s)
  have pass : ∀ r : String, jsStartsWith r '[' = true → jsEndsWith r ']' = true →
      pathMaker (.str r) = r := by
    intro r hh1 hh2
    simp [pathMaker, hh1, hh2]
  rcases key with h | ⟨h1, h2⟩
  · rw [h]
    decide
  · exact pass (pathMaker p) h1 h2

/-- State machine over the characters of a text path deciding the notion of
the claim: the text is one or more consecutive bracket groups, with no
stray characters between or around them and no nested brackets. The flag
says whether the scan is inside a group. -/
def wgAux : List Char → Bool → Bool
  | [], inside => !inside
  | c :: rest, false => if c == '[' then wgAux rest true else false
  | c :: rest, true =>
    if c == ']' then wgAux rest false else if c == '[' then false else wgAux rest true

/-- Formalization of the claim notion of a fully wrapped text: entirely
composed of one or more consecutive bracket groups. -/
def isWrappedGroups (s : String) : Bool :=
  !s.data.isEmpty && wgAux s.data false

theorem getLast_cons_ne (c : Char) (rest : List Char) (h : rest ≠ []) :
    (c :: rest).getLast? = rest.getLast? := by
  cases rest with
  | nil => exact absurd rfl h
  | cons d ds => exact List.getLast?_cons_cons

theorem wgAux_getLast (l : List Char) (st : Bool) (h : wgAux l st = true) :
    (l = [] ∧ st = false) ∨ l.getLast? = some ']' := by
  induction l generalizing st with
  | nil =>
    cases st with
    | false => exact Or.inl ⟨rfl, rfl⟩
    | true => cases h
  | cons c rest ih =>
    right
    cases st with
    | false =>
      by_cases hc : c == '['
      · rw [wgAux, if_pos hc] at h
        rcases ih true h with ⟨hnil, hst⟩ | hlast
        · cases hst
        · rw [getLast_cons_ne _ _ (by intro hnil; rw [hnil] at hlast; cases hlast)]
          exact hlast
      · rw [wgAux, if_neg hc] at h
        cases h
    | true =>
      by_cases hc : c == ']'
      · rw [wgAux, if_pos hc] at h
        rcases ih false h with ⟨hnil, _⟩ | hlast
        · subst hnil
          simp only [List.getLast?_singleton]
          exact congrArg some (beq_iff_eq.mp hc) |>.symm ▸ rfl
        · rw [getLast_cons_ne _ _ (by intro hnil; rw [hnil] at hlast; cases hlast)]
          exact hlast
      · rw [wgAux, if_neg hc] at h
        by_cases hc2 : c == '['
        · rw [if_pos hc2] at h
          cases h
        · rw [if_neg hc2] at h
          rcases ih true h with ⟨hnil, hst⟩ | hlast
          · cases hst
          · rw [getLast_cons_ne _ _ (by intro hnil; rw [hnil] at hlast; cases hlast)]
            exact hlast

theorem wgAux_head (l : List Char) (h : wgAux l false = true) (hne : l ≠ []) :
    l.head? = some '[' := by
  cases l with
  | nil => exact absurd rfl hne
  | cons c rest =>
    by_cases hc : c == '['
    · rw [List.head?_cons]
      exact congrArg some (beq_iff_eq.mp hc)
    · rw [wgAux, if_neg hc] at h
      cases h

/-- Claim C8 as amended: the pass-through test of the normalizer checks only
that the text begins with an open bracket and ends with a close bracket;
every fully wrapped text passes that test and is returned unchanged, and a
text failing the test is split on dots and rebuilt. The test is coarser
than full wrapping, so pass-through is not restricted to fully wrapped
inputs. -/
theorem pathMaker_passthrough (s : String) :
    (isWrappedGroups s = true → pathMaker (.str s) = s) ∧
    (jsStartsWith s '[' = true → jsEndsWith s ']' = true → pathMaker (.str s) = s) ∧
    ((jsStartsWith s '[' && jsEndsWith s ']') = false →
      pathMaker (.str s) = pathMakerList (jsSplitDot s)) := by
  have pass : jsStartsWith s '[' = true → jsEndsWith s ']' = true → pathMaker (.str s) = s := by
    intro h1 h2
    simp [pathMaker, h1, h2]
  refine ⟨?_, pass, ?_⟩
  · intro hw
    have hne : s.data ≠ [] := by
      have := (Bool.and_eq_true _ _).mp hw |>.1
      simpa using this
    have hwg : wgAux s.data false = true := (Bool.and_eq_true _ _).mp hw |>.2
    have hhead : s.data.head? = some '[' := wgAux_head s.data hwg hne
    have hlast : s.data.getLast? = some ']' := by
      rcases wgAux_getLast s.data false hwg with ⟨hnil, _⟩ | h
      · exact absurd hnil hne
      · exact h
    exact pass (by simp [jsStartsWith, hhead]) (by simp [jsEndsWith, hlast])
  · intro h
    simp only [pathMaker]
    rw [if_neg (by simp [h])]

/-- Counterexample for C8: a text with a stray character between two groups
is not fully wrapped, yet the normalizer passes it through unchanged
instead of splitting and rebuilding it. -/
theorem pathMaker_passthrough_counterexample :
    isWrappedGroups "[a]x[b]" = false ∧
    pathMaker (.str "[a]x[b]") = "[a]x[b]" ∧
    pathMaker (.str "[a]x[b]") ≠ pathMakerList (jsSplitDot "[a]x[b]") := by
  refine ⟨by decide, by decide, by decide⟩

/-- Fully wrapped sample input for the C8 witness, bracket-quoted a then
bracket 0. -/
def c8wrapped : String := String.mk ('[' :: sqc :: 'a' :: sqc :: ']' :: '[' :: '0' :: ']' :: [])

/-- Witness for C8: a fully wrapped two-group text passes through
unchanged, and a plain dotted text fails the bracket test and is rebuilt. -/
theorem pathMaker_passthrough_witness :
    isWrappedGroups c8wrapped = true ∧
    pathMaker (.str c8wrapped) = c8wrapped ∧
    (jsStartsWith "a.b" '[' && jsEndsWith "a.b" ']') = false ∧
    pathMaker (.str "a.b") = pathMakerList (jsSplitDot "a.b") :=
  ⟨by decide, (pathMaker_passthrough c8wrapped).1 (by decide), by decide,
    (pathMaker_passthrough "a.b").2.2 (by decide)⟩

theorem jsObjSet_append (o : List (String × Decoded)) (k : String) (v : Decoded)
    (h : ∀ p ∈ o, p.1 ≠ k) : jsObjSet o k v = o ++ [(k, v)] := by
  have hany : o.any (fun p => p.1 == k) = false := by
    rw [List.any_eq_false]
    intro p hp
    simp [h p hp]
  simp [jsObjSet, hany]

theorem mgetAssign_nodup (parse : String → Option Json) (ks : List String)
    (rs : List RawReply) (acc : List (String × Decoded))
    (h : (acc.map Prod.fst ++ ks).Nodup) :
    mgetAssign parse ks rs acc = acc ++ decodeAll parse ks rs := by
  induction ks generalizing rs acc with
  | nil => simp [mgetAssign, decodeAll]
  | cons k ks ih =>
    have hknotin : ∀ p ∈ acc, p.1 ≠ k := by
      intro p hp hpk
      have hdisj : (acc.map Prod.fst).Disjoint (k :: ks) := (List.nodup_append.mp h).2.2
      have hmem : k ∈ acc.map Prod.fst := by
        rw [← hpk]
        exact List.mem_map_of_mem Prod.fst hp
      exact hdisj hmem (List.mem_cons_self k ks)
    rw [mgetAssign, jsObjSet_append acc k _ hknotin]
    rw [ih rs.tail (acc ++ [(k, safetyJsonParse parse (rs.headD .undef))]) ?_]
    · simp [decodeAll]
    · simp only [List.map_append, List.map_cons, List.map_nil]
      have : acc.map Prod.fst ++ [k] ++ ks = acc.map Prod.fst ++ k :: ks := by
        simp
      rw [this]
      exact h

theorem decodeAll_map_fst (parse : String → Option Json) (ks : List String)
    (rs : List RawReply) : (decodeAll parse ks rs).map Prod.fst = ks := by
  induction ks generalizing rs with
  | nil => rfl
  | cons k ks ih => simp [decodeAll, ih]

/-- Claim C9 as amended: a dispatch failure of the multi-key read
propagates unchanged and no mapping is returned; for a duplicate-free key
list a successful read returns the association pairing each input key, in
input order, with the parse of its reply element, a null reply decoding to
null; per-key decoding itself never fails because safetyJsonParse falls
back to the raw text. Duplicate keys collapse into one property of the
result object, so the key set, not the key multiset, matches the input. -/
theorem mget_mapping (parse : String → Option Json) (keys : List String) (e : JsError)
    (rs : List RawReply) :
    mget parse keys (.error e) = .error e ∧
    (keys.Nodup → mget parse keys (.ok rs) = .ok (decodeAll parse keys rs)) ∧
    (decodeAll parse keys rs).map Prod.fst = keys ∧
    safetyJsonParse parse .nullv = .json .null := by
  refine ⟨rfl, ?_, decodeAll_map_fst parse keys rs, rfl⟩
  intro hnodup
  simp only [mget]
  rw [mgetAssign_nodup parse keys rs [] (by simpa using hnodup)]
  rfl

/-- Trivial decoder for the C9 concrete runs: every text fails to parse and
stays raw (the mapping structure does not depend on the decoder). -/
def parseNone : String → Option Json := fun _ => none

/-- Counterexample for C9: with the same key twice, the returned object
holds a single property, so its keys are not the input keys in order. -/
theorem mget_mapping_counterexample :
    mget parseNone ["k", "k"] (.ok [.strv "1", .strv "2"]) =
      .ok [("k", Decoded.raw "2")] ∧
    [("k", Decoded.raw "2")].map Prod.fst ≠ ["k", "k"] := by
  constructor
  · rfl
  · decide

/-- Witness for C9: two distinct keys produce the in-order association of
each key with the parse of its reply element. -/
theorem mget_mapping_witness :
    List.Nodup ["k1", "k2"] ∧
    mget parseNone ["k1", "k2"] (.ok [.nullv, .strv "x"]) =
      .ok (decodeAll parseNone ["k1", "k2"] [.nullv, .strv "x"]) :=
  ⟨by decide, (mget_mapping parseNone ["k1", "k2"] ⟨"e"⟩ [.nullv, .strv "x"]).2.1 (by decide)⟩

/-- Claim C10: arrpop dispatches the operation name JSON.ARRLEN, the very
name arrlen dispatches and not an array-pop operation, for every key, path
and optional index; under the store model the array-length operation leaves
the document unchanged and reports the length of the array at the path. -/
theorem arrpop_dispatches_arrlen (key : String) (path : JSPath) (index : Option Int)
    (doc : Option Json) (segs : List JSeg) :
    (arrpop key path index).name = "JSON.ARRLEN" ∧
    (arrpop key path index).name = (arrlen key path).name ∧
    (arrpop key path index).name ≠ "JSON.ARRPOP" ∧
    (execArrlenDoc doc segs).2 = doc ∧
    (∀ elems : List Json, (doc.bind fun d => resolvePath d segs) = some (.arr elems) →
      (execArrlenDoc doc segs).1 = some elems.length) := by
  refine ⟨rfl, rfl, by simp [arrpop], rfl, ?_⟩
  intro elems h
  simp [execArrlenDoc, h]

/-- Witness for C10: over a two-element array stored at the root, the
array-length operation reports 2 and leaves the document alone. -/
theorem arrpop_dispatches_arrlen_witness :
    ((some (Json.arr [Json.null, Json.bool true])).bind fun d => resolvePath d []) =
      some (Json.arr [Json.null, Json.bool true]) ∧
    (execArrlenDoc (some (Json.arr [Json.null, Json.bool true])) []).1 = some 2 ∧
    (arrpop "k" (.str "a") none).name = (arrlen "k" (.str "a")).name :=
  ⟨rfl,
    (arrpop_dispatches_arrlen "k" (.str "a") none (some (Json.arr [Json.null, Json.bool true]))
        []).2.2.2.2 [Json.null, Json.bool true] rfl,
    (arrpop_dispatches_arrlen "k" (.str "a") none none []).2.1⟩
